import Mathlib

/-!
Shallow embedding of the metrics-chart renderer from src/src/app/page.tsx
(obsidian-dashboard-v2). Numbers are modelled as rationals; the embedded
functions mirror the TypeScript utilities generateSmoothPath, getYAtX and
getLabelAtX, and the path-drawing order of the MetricsChart component.
-/

namespace ObsidianDashboard

/-- One sample of one series, with x and y normalized to 0..100 and an
optional label (mirrors interface DataPoint). -/
structure DataPoint where
  x : ℚ
  y : ℚ
  label : Option String := none
deriving DecidableEq

/-- One chart series (mirrors interface ChartLine); presentation fields
kept for fidelity. -/
structure ChartLine where
  id : String
  data : List DataPoint
  label : String
  color : String
  lineOpacity : Option ℚ := none
  lineWidth : Option ℚ := none
  isPrimary : Option Bool := none
deriving DecidableEq

/-- A point in pixel space. -/
structure Pixel where
  px : ℚ
  py : ℚ
deriving DecidableEq

/-- One cubic Bezier segment of the path: two control points and the
segment endpoint (the C command of the path string). -/
structure CubicSeg where
  cp1 : Pixel
  cp2 : Pixel
  endPt : Pixel
deriving DecidableEq

/-- Mirrors scaleX in generateSmoothPath: px = (x / 100) * width. -/
def scaleX (width x : ℚ) : ℚ := x / 100 * width

/-- Mirrors scaleY in generateSmoothPath: py = height - (y / 100) * height. -/
def scaleY (height y : ℚ) : ℚ := height - y / 100 * height

/-- Maps a data point to pixel space using scaleX and scaleY. -/
def toPixel (width height : ℚ) (p : DataPoint) : Pixel :=
  ⟨scaleX width p.x, scaleY height p.y⟩

/-- Default data point used only to give List.getD a value at indices the
source code never reads out of range. -/
def dfltPoint : DataPoint := ⟨0, 0, none⟩

/-- Total indexing into a point list, standing in for the JS points[i]. -/
def nth (ps : List DataPoint) (i : ℕ) : DataPoint := ps.getD i dfltPoint

/-- The i-th cubic segment emitted by the loop body of generateSmoothPath:
p0 = points[max(0, i-1)] (ℕ subtraction i-1 clamps at 0), p1 = points[i],
p2 = points[i+1], p3 = points[min(length-1, i+2)]. -/
def segAt (points : List DataPoint) (width height : ℚ) (i : ℕ) : CubicSeg :=
  let p0 := nth points (i - 1)
  let p1 := nth points i
  let p2 := nth points (i + 1)
  let p3 := nth points (min (points.length - 1) (i + 2))
  { cp1 := ⟨scaleX width p1.x + (scaleX width p2.x - scaleX width p0.x) / 6,
            scaleY height p1.y + (scaleY height p2.y - scaleY height p0.y) / 6⟩
    cp2 := ⟨scaleX width p2.x - (scaleX width p3.x - scaleX width p1.x) / 6,
            scaleY height p2.y - (scaleY height p3.y - scaleY height p1.y) / 6⟩
    endPt := toPixel width height p2 }

/-- Mirrors generateSmoothPath: empty result for fewer than 2 points,
otherwise the mapped first point (the M command) followed by one cubic
segment per consecutive pair of points. -/
def generateSmoothPath (points : List DataPoint) (width height : ℚ) :
    Option (Pixel × List CubicSeg) :=
  match points with
  | [] => none
  | [_] => none
  | p :: q :: rest =>
    some (toPixel width height p,
      (List.range ((p :: q :: rest).length - 1)).map
        (segAt (p :: q :: rest) width height))

/-- The scan loop of getYAtX: walks consecutive pairs in order and returns
the interpolated value at the first bracketing pair, if any. -/
def interpScan : List DataPoint → ℚ → Option ℚ
  | p :: q :: rest, t =>
    if p.x ≤ t ∧ t ≤ q.x then
      some (p.y + (t - p.x) / (q.x - p.x) * (q.y - p.y))
    else interpScan (q :: rest) t
  | _, _ => none

/-- Mirrors getYAtX: 0 on empty input, clamp to first y at or before the
first x, clamp to last y at or after the last x, otherwise the first
bracketing segment's linear interpolation (falling back to the last y if
the scan finds nothing). -/
def getYAtX : List DataPoint → ℚ → ℚ
  | [], _ => 0
  | p :: rest, targetX =>
    let lastP := (p :: rest).getLast (List.cons_ne_nil p rest)
    if targetX ≤ p.x then p.y
    else if lastP.x ≤ targetX then lastP.y
    else
      match interpScan (p :: rest) targetX with
      | some v => v
      | none => lastP.y

/-- The scan loop of getLabelAtX: at the first bracketing pair returns the
left point's label when t < 0.5 and the right point's label otherwise,
with a missing label read as the empty string. -/
def labelScan : List DataPoint → ℚ → Option String
  | p :: q :: rest, t =>
    if p.x ≤ t ∧ t ≤ q.x then
      some (if (t - p.x) / (q.x - p.x) < 1 / 2 then (p.label).getD ("")
            else (q.label).getD (""))
    else labelScan (q :: rest) t
  | _, _ => none

/-- Whether a line's isPrimary flag is present and true (the JS truthiness
test l.isPrimary). -/
def isPrimaryTrue (l : ChartLine) : Bool := l.isPrimary.getD false

/-- Mirrors lines.find(l => l.isPrimary) || lines[0]. -/
def selectPrimary (lines : List ChartLine) : Option ChartLine :=
  (List.find? (fun l => isPrimaryTrue l) lines).orElse (fun _ => lines.head?)

/-- Mirrors getLabelAtX: empty string when no line can be selected, else
the label chosen by the scan over the selected line's data, falling back
to the last point's label (empty string when the data is empty). -/
def getLabelAtX (lines : List ChartLine) (targetX : ℚ) : String :=
  match selectPrimary lines with
  | none => ""
  | some primaryLine =>
    match labelScan primaryLine.data targetX with
    | some s => s
    | none =>
      match primaryLine.data.getLast? with
      | none => ""
      | some p => (p.label).getD ("")

/-- The per-series paths emitted by MetricsChart, in drawing order:
the component maps over the reversed collection
([...processedLines].reverse()), one path per line. -/
def renderedPaths (lines : List ChartLine) (width height : ℚ) :
    List (String × Option (Pixel × List CubicSeg)) :=
  lines.reverse.map (fun l => (l.id, generateSmoothPath l.data width height))

/-- Strictly ascending x coordinates, the spec's sortedness precondition. -/
def SortedX (ps : List DataPoint) : Prop :=
  ps.Pairwise (fun a b => a.x < b.x)

instance : DecidablePred SortedX := fun ps =>
  List.instDecidablePairwise ps

/-- Spec-side linear interpolation over one segment:
p.y + t * (q.y - p.y) with t = (targetX - p.x) / (q.x - p.x). -/
def lerpSeg (p q : DataPoint) (t : ℚ) : ℚ :=
  p.y + (t - p.x) / (q.x - p.x) * (q.y - p.y)

/-- Spec-side bracket predicate: segment i of ps contains t. -/
def BracketsAt (ps : List DataPoint) (i : ℕ) (t : ℚ) : Prop :=
  (nth ps i).x ≤ t ∧ t ≤ (nth ps (i + 1)).x

instance (ps : List DataPoint) (i : ℕ) (t : ℚ) :
    Decidable (BracketsAt ps i t) := by
  unfold BracketsAt; infer_instance

/-- Spec-side nearest-label rule on one segment: the left endpoint's label
when t < 0.5, the right endpoint's label when t is at least 0.5. -/
def nearLabel (p q : DataPoint) (t : ℚ) : String :=
  if (t - p.x) / (q.x - p.x) < 1 / 2 then (p.label).getD ("")
  else (q.label).getD ("")

/-- The denominators evaluated by the scan loops of getYAtX and
getLabelAtX: both divide by points[i+1].x - points[i].x exactly at the
first bracketing pair, and nowhere else. -/
def scanDenoms : List DataPoint → ℚ → List ℚ
  | p :: q :: rest, t =>
    if p.x ≤ t ∧ t ≤ q.x then [q.x - p.x] else scanDenoms (q :: rest) t
  | _, _ => []

/-- The denominators evaluated by one call of getYAtX: none on the empty
or clamped branches, the scan's denominators otherwise. -/
def getYAtXDenoms : List DataPoint → ℚ → List ℚ
  | [], _ => []
  | p :: rest, t =>
    let lastP := (p :: rest).getLast (List.cons_ne_nil p rest)
    if t ≤ p.x then [] else if lastP.x ≤ t then []
    else scanDenoms (p :: rest) t

/-- The denominators evaluated by one call of getLabelAtX: the scan runs
on the selected primary line's data (no clamping branches there). -/
def getLabelAtXDenoms (lines : List ChartLine) (t : ℚ) : List ℚ :=
  match selectPrimary lines with
  | none => []
  | some pl => scanDenoms pl.data t

/-- The mapped pixel sequence of the spec's Curve Generator. -/
def mappedPoints (ps : List DataPoint) (width height : ℚ) : List Pixel :=
  ps.map (toPixel width height)

/-- Total indexing into a pixel list. -/
def nthPix (qs : List Pixel) (i : ℕ) : Pixel := qs.getD i ⟨0, 0⟩

/-- The spec's control-point rule for segment i of the mapped pixel
sequence: cp1 = p1 + (p2 - p0) / 6 and cp2 = p2 - (p3 - p1) / 6 per axis,
with p0 the previous point clamped to index 0 and p3 the next point
clamped to the last index. -/
def specSegAt (qs : List Pixel) (i : ℕ) : CubicSeg :=
  let p0 := nthPix qs (i - 1)
  let p1 := nthPix qs i
  let p2 := nthPix qs (i + 1)
  let p3 := nthPix qs (min (qs.length - 1) (i + 2))
  { cp1 := ⟨p1.px + (p2.px - p0.px) / 6, p1.py + (p2.py - p0.py) / 6⟩
    cp2 := ⟨p2.px - (p3.px - p1.px) / 6, p2.py - (p3.py - p1.py) / 6⟩
    endPt := p2 }

/-- The spec's end-to-end demo series: x 0, 50, 100 with y 0, 100, 0. -/
def demoSeries : List DataPoint :=
  [⟨0, 0, none⟩, ⟨50, 100, none⟩, ⟨100, 0, none⟩]

/-- A primary line with two labelled points at x = 0 and x = 100, used by
the spec's tie-break example. -/
def lineLR : ChartLine :=
  { id := "lr", data := [⟨0, 0, some ("L")⟩, ⟨100, 0, some ("R")⟩],
    label := "LR", color := "", isPrimary := some true }

/-- A non-primary line with id a, first in the collection of the
drawing-order counterexample. -/
def lineA : ChartLine :=
  { id := "a", data := [], label := "A", color := "", isPrimary := some false }

/-- A primary line with id b, second in the collection of the
drawing-order counterexample. -/
def lineB : ChartLine :=
  { id := "b", data := [], label := "B", color := "", isPrimary := some true }

/-- Fallback line for total indexing into a line list. -/
def dfltLine : ChartLine :=
  { id := "", data := [], label := "", color := "" }

/-- Total indexing into a line list. -/
def nthLine (ls : List ChartLine) (i : ℕ) : ChartLine := ls.getD i dfltLine

/-- Fallback cubic segment for total indexing into a segment list. -/
def dfltSeg : CubicSeg := ⟨⟨0, 0⟩, ⟨0, 0⟩, ⟨0, 0⟩⟩

/-- Total indexing into a segment list. -/
def nthSeg (segs : List CubicSeg) (i : ℕ) : CubicSeg := segs.getD i dfltSeg

lemma nth_cons_zero (p : DataPoint) (ps : List DataPoint) : nth (p :: ps) 0 = p := rfl

lemma nth_cons_succ (p : DataPoint) (ps : List DataPoint) (i : ℕ) :
    nth (p :: ps) (i + 1) = nth ps i := rfl

lemma nth_eq_getElem (ps : List DataPoint) (i : ℕ) (h : i < ps.length) :
    nth ps i = ps[i] := by
  simp [nth, List.getD_eq_getElem?_getD, List.getElem?_eq_getElem h]

lemma getLast_eq_nth (ps : List DataPoint) (h : ps ≠ []) :
    ps.getLast h = nth ps (ps.length - 1) := by
  have hlen : ps.length - 1 < ps.length := by
    cases ps with
    | nil => exact absurd rfl h
    | cons a l => simp
  rw [List.getLast_eq_getElem, nth_eq_getElem ps (ps.length - 1) hlen]

lemma sortedX_lt {ps : List DataPoint} (hs : SortedX ps) {j k : ℕ}
    (hjk : j < k) (hk : k < ps.length) : (nth ps j).x < (nth ps k).x := by
  rw [nth_eq_getElem ps j (lt_trans hjk hk), nth_eq_getElem ps k hk]
  exact (List.pairwise_iff_getElem.mp hs) j k (lt_trans hjk hk) hk hjk

lemma sortedX_le {ps : List DataPoint} (hs : SortedX ps) {j k : ℕ}
    (hjk : j ≤ k) (hk : k < ps.length) : (nth ps j).x ≤ (nth ps k).x := by
  rcases lt_or_eq_of_le hjk with h | h
  · exact le_of_lt (sortedX_lt hs h hk)
  · rw [h]

lemma sortedX_tail {p : DataPoint} {ps : List DataPoint}
    (hs : SortedX (p :: ps)) : SortedX ps :=
  (List.pairwise_cons.mp hs).2

lemma bracketsAt_cons_succ (p : DataPoint) (ps : List DataPoint) (j : ℕ)
    (t : ℚ) : BracketsAt (p :: ps) (j + 1) t ↔ BracketsAt ps j t := by
  simp [BracketsAt, nth_cons_succ]

lemma interpScan_first (ps : List DataPoint) (t : ℚ) (i : ℕ)
    (hi : i + 1 < ps.length) (hbr : BracketsAt ps i t)
    (hfirst : ∀ j, j < i → ¬ BracketsAt ps j t) :
    interpScan ps t = some (lerpSeg (nth ps i) (nth ps (i + 1)) t) := by
  induction ps generalizing i with
  | nil => simp at hi
  | cons p rest ih =>
    cases rest with
    | nil => simp at hi
    | cons q rest' =>
      cases i with
      | zero =>
        obtain ⟨h1, h2⟩ := hbr
        rw [nth_cons_zero] at h1
        rw [nth_cons_succ, nth_cons_zero] at h2
        simp only [interpScan, if_pos (And.intro h1 h2)]
        rfl
      | succ j =>
        have hnot : ¬ (p.x ≤ t ∧ t ≤ q.x) := by
          have := hfirst 0 (Nat.succ_pos j)
          simpa [BracketsAt, nth_cons_zero, nth_cons_succ] using this
        simp only [interpScan, if_neg hnot]
        rw [nth_cons_succ, nth_cons_succ]
        exact ih j (by simpa using hi)
          ((bracketsAt_cons_succ p (q :: rest') j t).mp hbr)
          (fun j' hj' => fun hc =>
            hfirst (j' + 1) (Nat.succ_lt_succ hj')
              ((bracketsAt_cons_succ p (q :: rest') j' t).mpr hc))

lemma labelScan_first (ps : List DataPoint) (t : ℚ) (i : ℕ)
    (hi : i + 1 < ps.length) (hbr : BracketsAt ps i t)
    (hfirst : ∀ j, j < i → ¬ BracketsAt ps j t) :
    labelScan ps t = some (nearLabel (nth ps i) (nth ps (i + 1)) t) := by
  induction ps generalizing i with
  | nil => simp at hi
  | cons p rest ih =>
    cases rest with
    | nil => simp at hi
    | cons q rest' =>
      cases i with
      | zero =>
        obtain ⟨h1, h2⟩ := hbr
        rw [nth_cons_zero] at h1
        rw [nth_cons_succ, nth_cons_zero] at h2
        simp only [labelScan, if_pos (And.intro h1 h2)]
        rfl
      | succ j =>
        have hnot : ¬ (p.x ≤ t ∧ t ≤ q.x) := by
          have := hfirst 0 (Nat.succ_pos j)
          simpa [BracketsAt, nth_cons_zero, nth_cons_succ] using this
        simp only [labelScan, if_neg hnot]
        rw [nth_cons_succ, nth_cons_succ]
        exact ih j (by simpa using hi)
          ((bracketsAt_cons_succ p (q :: rest') j t).mp hbr)
          (fun j' hj' => fun hc =>
            hfirst (j' + 1) (Nat.succ_lt_succ hj')
              ((bracketsAt_cons_succ p (q :: rest') j' t).mpr hc))

lemma interpScan_eq_none (ps : List DataPoint) (t : ℚ)
    (h : ∀ j, j + 1 < ps.length → ¬ BracketsAt ps j t) :
    interpScan ps t = none := by
  induction ps with
  | nil => rfl
  | cons p rest ih =>
    cases rest with
    | nil => rfl
    | cons q rest' =>
      have hnot : ¬ (p.x ≤ t ∧ t ≤ q.x) := by
        have := h 0 (by simp)
        simpa [BracketsAt, nth_cons_zero, nth_cons_succ] using this
      simp only [interpScan, if_neg hnot]
      exact ih (fun j hj => fun hc =>
        h (j + 1) (by simpa using hj)
          ((bracketsAt_cons_succ p (q :: rest') j t).mpr hc))

lemma labelScan_eq_none (ps : List DataPoint) (t : ℚ)
    (h : ∀ j, j + 1 < ps.length → ¬ BracketsAt ps j t) :
    labelScan ps t = none := by
  induction ps with
  | nil => rfl
  | cons p rest ih =>
    cases rest with
    | nil => rfl
    | cons q rest' =>
      have hnot : ¬ (p.x ≤ t ∧ t ≤ q.x) := by
        have := h 0 (by simp)
        simpa [BracketsAt, nth_cons_zero, nth_cons_succ] using this
      simp only [labelScan, if_neg hnot]
      exact ih (fun j hj => fun hc =>
        h (j + 1) (by simpa using hj)
          ((bracketsAt_cons_succ p (q :: rest') j t).mpr hc))

lemma getYAtX_cons (p : DataPoint) (rest : List DataPoint) (t : ℚ) :
    getYAtX (p :: rest) t =
      (if t ≤ p.x then p.y
       else if ((p :: rest).getLast (List.cons_ne_nil p rest)).x ≤ t then
         ((p :: rest).getLast (List.cons_ne_nil p rest)).y
       else
         match interpScan (p :: rest) t with
         | some v => v
         | none => ((p :: rest).getLast (List.cons_ne_nil p rest)).y) := rfl

lemma lerpSeg_left (p q : DataPoint) : lerpSeg p q p.x = p.y := by
  simp [lerpSeg]

lemma lerpSeg_right (p q : DataPoint) (hne : p.x ≠ q.x) :
    lerpSeg p q q.x = q.y := by
  have h : q.x - p.x ≠ 0 := sub_ne_zero.mpr (Ne.symm hne)
  field_simp [lerpSeg]

/-- Central lemma: under strictly ascending x, getYAtX agrees with the
linear interpolation of segment i everywhere on that segment. -/
lemma getYAtX_on_seg (ps : List DataPoint) (t : ℚ) (i : ℕ) (hs : SortedX ps)
    (hi : i + 1 < ps.length) (h1 : (nth ps i).x ≤ t)
    (h2 : t ≤ (nth ps (i + 1)).x) :
    getYAtX ps t = lerpSeg (nth ps i) (nth ps (i + 1)) t := by
  cases ps with
  | nil => simp at hi
  | cons p rest =>
    set ps := p :: rest with hps
    have hilt : i < ps.length := lt_trans (Nat.lt_succ_self i) hi
    have hdx : (nth ps i).x < (nth ps (i + 1)).x :=
      sortedX_lt hs (Nat.lt_succ_self i) hi
    have hlast : ps.getLast (List.cons_ne_nil p rest) = nth ps (ps.length - 1) :=
      getLast_eq_nth ps (List.cons_ne_nil p rest)
    rw [getYAtX_cons, hlast]
    by_cases hA : t ≤ p.x
    · have hp0 : p = nth ps 0 := rfl
      have hi0 : i = 0 := by
        by_contra hne
        have : (nth ps 0).x < (nth ps i).x :=
          sortedX_lt hs (Nat.pos_of_ne_zero hne) hilt
        rw [← hp0] at this
        linarith
      subst hi0
      have ht : t = (nth ps 0).x := le_antisymm (by rw [← hp0]; exact hA) h1
      rw [if_pos hA, ht, lerpSeg_left, hp0]
    · rw [if_neg hA]
      have hplt : p.x < t := lt_of_not_le hA
      by_cases hB : (nth ps (ps.length - 1)).x ≤ t
      · have hle : i + 1 ≤ ps.length - 1 := by omega
        have hlast_lt : ps.length - 1 < ps.length := by omega
        have hxe : t = (nth ps (i + 1)).x := by
          have : (nth ps (i + 1)).x ≤ (nth ps (ps.length - 1)).x :=
            sortedX_le hs hle hlast_lt
          linarith
        have hitop : i + 1 = ps.length - 1 := by
          by_contra hne
          have : (nth ps (i + 1)).x < (nth ps (ps.length - 1)).x :=
            sortedX_lt hs (lt_of_le_of_ne hle hne) hlast_lt
          linarith
        rw [if_pos hB, ← hitop, hxe,
          lerpSeg_right (nth ps i) (nth ps (i + 1)) (ne_of_lt hdx)]
      · rw [if_neg hB]
        by_cases hC : (nth ps i).x < t
        · have hscan : interpScan ps t =
              some (lerpSeg (nth ps i) (nth ps (i + 1)) t) := by
            refine interpScan_first ps t i hi ⟨h1, h2⟩ ?_
            intro j hj hBr
            obtain ⟨_, hc2⟩ := hBr
            have : (nth ps (j + 1)).x ≤ (nth ps i).x :=
              sortedX_le hs (by omega) hilt
            linarith
          rw [hscan]
        · have hxe : (nth ps i).x = t := le_antisymm h1 (le_of_not_lt hC)
          have hipos : 0 < i := by
            rcases Nat.eq_zero_or_pos i with h0 | h0
            · subst h0
              exact absurd hxe (by rw [show nth ps 0 = p from rfl]; linarith)
            · exact h0
          have hstep : i - 1 + 1 = i := Nat.succ_pred_eq_of_pos hipos
          have hprev_lt : (nth ps (i - 1)).x < (nth ps i).x :=
            sortedX_lt hs (by omega) hilt
          have hscan : interpScan ps t =
              some (lerpSeg (nth ps (i - 1)) (nth ps (i - 1 + 1)) t) := by
            refine interpScan_first ps t (i - 1) (by omega) ?_ ?_
            · show (nth ps (i - 1)).x ≤ t ∧ t ≤ (nth ps (i - 1 + 1)).x
              rw [hstep]
              constructor
              · linarith
              · linarith [hxe.le]
            · intro j hj hBr
              obtain ⟨_, hc2⟩ := hBr
              have : (nth ps (j + 1)).x ≤ (nth ps (i - 1)).x :=
                sortedX_le hs (by omega) (by omega)
              linarith
          rw [hscan, hstep]
          have hL : lerpSeg (nth ps (i - 1)) (nth ps i) t = (nth ps i).y := by
            rw [← hxe]
            exact lerpSeg_right (nth ps (i - 1)) (nth ps i) (ne_of_lt hprev_lt)
          have hR : lerpSeg (nth ps i) (nth ps (i + 1)) t = (nth ps i).y := by
            rw [← hxe]
            exact lerpSeg_left (nth ps i) (nth ps (i + 1))
          rw [hL, hR]

lemma getLast?_eq_nth (ps : List DataPoint) (h : ps ≠ []) :
    ps.getLast? = some (nth ps (ps.length - 1)) := by
  have hlen : ps.length - 1 < ps.length := by
    cases ps with
    | nil => exact absurd rfl h
    | cons a l => simp
  rw [List.getLast?_eq_getElem?, List.getElem?_eq_getElem hlen,
    nth_eq_getElem ps (ps.length - 1) hlen]

lemma getYAtX_clamp_left {ps : List DataPoint} {t : ℚ} {p : DataPoint}
    (hh : ps.head? = some p) (ht : t ≤ p.x) : getYAtX ps t = p.y := by
  cases ps with
  | nil => simp at hh
  | cons a rest =>
    have ha : a = p := by simpa using hh
    subst ha
    rw [getYAtX_cons, if_pos ht]

lemma getYAtX_clamp_right {ps : List DataPoint} {t : ℚ} {q : DataPoint}
    (hs : SortedX ps) (hl : ps.getLast? = some q) (ht : q.x ≤ t) :
    getYAtX ps t = q.y := by
  cases ps with
  | nil => simp at hl
  | cons a rest =>
    have hq : nth (a :: rest) ((a :: rest).length - 1) = q := by
      have := getLast?_eq_nth (a :: rest) (List.cons_ne_nil a rest)
      rw [this] at hl
      exact Option.some_injective _ hl
    rw [getYAtX_cons, getLast_eq_nth (a :: rest) (List.cons_ne_nil a rest), hq]
    by_cases hA : t ≤ a.x
    · have ha0 : a = nth (a :: rest) 0 := rfl
      have hone : rest = [] := by
        by_contra hne
        have hlen : 1 ≤ (a :: rest).length - 1 := by
          cases rest with
          | nil => exact absurd rfl hne
          | cons b l => simp
        have : (nth (a :: rest) 0).x < (nth (a :: rest) ((a :: rest).length - 1)).x :=
          sortedX_lt hs (by omega) (by simp)
        rw [← ha0, hq] at this
        linarith
      subst hone
      have : a = q := by simpa using hq
      subst this
      rw [if_pos hA]
    · rw [if_neg hA, if_pos ht]

/-- Claim C4: valueAt follows the defined-default policy with no error
case: 0 on the empty sequence, the first point's y at or before the
first x, the last point's y at or after the last x; in particular for
normalized data, queries at -50 and 500 clamp to the endpoints. -/
theorem valueAt_defined_default_policy :
    (∀ t : ℚ, getYAtX [] t = 0) ∧
    (∀ (ps : List DataPoint) (t : ℚ) (p : DataPoint), SortedX ps →
      ps.head? = some p → t ≤ p.x → getYAtX ps t = p.y) ∧
    (∀ (ps : List DataPoint) (t : ℚ) (q : DataPoint), SortedX ps →
      ps.getLast? = some q → q.x ≤ t → getYAtX ps t = q.y) ∧
    (∀ (ps : List DataPoint) (p q : DataPoint), SortedX ps →
      ps.head? = some p → ps.getLast? = some q →
      (∀ r ∈ ps, 0 ≤ r.x ∧ r.x ≤ 100) →
      getYAtX ps (-50) = p.y ∧ getYAtX ps 500 = q.y) := by
  refine ⟨fun t => rfl, ?_, ?_, ?_⟩
  · intro ps t p _ hh ht
    exact getYAtX_clamp_left hh ht
  · intro ps t q hs hl ht
    exact getYAtX_clamp_right hs hl ht
  · intro ps p q hs hh hl hrange
    have hpmem : p ∈ ps := by
      cases ps with
      | nil => simp at hh
      | cons a rest =>
        have : a = p := by simpa using hh
        rw [← this]; exact List.mem_cons_self a rest
    have hqmem : q ∈ ps := by
      rcases List.getLast?_eq_some_iff.mp hl with ⟨ys, hys⟩
      rw [hys]; simp
    constructor
    · exact getYAtX_clamp_left hh (by linarith [(hrange p hpmem).1])
    · exact getYAtX_clamp_right hs hl (by linarith [(hrange q hqmem).2])

/-- Witness for C4 at the spec's demo series. -/
theorem valueAt_defined_default_policy_witness :
    getYAtX demoSeries (-50) = 0 ∧ getYAtX demoSeries 500 = 0 := by
  have h := valueAt_defined_default_policy.2.2.2 demoSeries
    ⟨0, 0, none⟩ ⟨100, 0, none⟩ (by decide) (by decide) (by decide) (by decide)
  exact h

/-- Claim C7: on a strictly sorted sequence, valueAt queried at a sample
point's x returns exactly that sample's y. -/
theorem valueAt_exact_at_sample_points (ps : List DataPoint) (i : ℕ)
    (hs : SortedX ps) (hi : i < ps.length) :
    getYAtX ps ((nth ps i).x) = (nth ps i).y := by
  by_cases hseg : i + 1 < ps.length
  · rw [getYAtX_on_seg ps ((nth ps i).x) i hs hseg (le_refl _)
      (le_of_lt (sortedX_lt hs (Nat.lt_succ_self i) hseg))]
    exact lerpSeg_left _ _
  · have hne : ps ≠ [] := by
      cases ps with
      | nil => simp at hi
      | cons a l => exact List.cons_ne_nil a l
    have hlast : i = ps.length - 1 := by omega
    rw [hlast]
    exact getYAtX_clamp_right hs (getLast?_eq_nth ps hne) (le_refl _)

/-- Witness for C7 at the spec's demo series, sample index 1. -/
theorem valueAt_exact_at_sample_points_witness :
    getYAtX demoSeries ((nth demoSeries 1).x) = (nth demoSeries 1).y :=
  valueAt_exact_at_sample_points demoSeries 1 (by decide) (by decide)

/-- Claim C8: on a strictly sorted sequence, between two consecutive
samples valueAt is non-decreasing when the sample y values are
non-decreasing and non-increasing when they are non-increasing. -/
theorem valueAt_monotone_on_segments (ps : List DataPoint) (i : ℕ)
    (t1 t2 : ℚ) (hs : SortedX ps) (hi : i + 1 < ps.length)
    (ha : (nth ps i).x ≤ t1) (hb : t1 ≤ t2) (hc : t2 ≤ (nth ps (i + 1)).x) :
    ((nth ps i).y ≤ (nth ps (i + 1)).y → getYAtX ps t1 ≤ getYAtX ps t2) ∧
    ((nth ps (i + 1)).y ≤ (nth ps i).y → getYAtX ps t2 ≤ getYAtX ps t1) := by
  have hx : (nth ps i).x < (nth ps (i + 1)).x :=
    sortedX_lt hs (Nat.lt_succ_self i) hi
  have e1 : getYAtX ps t1 = lerpSeg (nth ps i) (nth ps (i + 1)) t1 :=
    getYAtX_on_seg ps t1 i hs hi ha (le_trans hb hc)
  have e2 : getYAtX ps t2 = lerpSeg (nth ps i) (nth ps (i + 1)) t2 :=
    getYAtX_on_seg ps t2 i hs hi (le_trans ha hb) hc
  rw [e1, e2]
  have hdx : (0 : ℚ) ≤ (nth ps (i + 1)).x - (nth ps i).x :=
    le_of_lt (sub_pos.mpr hx)
  have hfrac : (t1 - (nth ps i).x) / ((nth ps (i + 1)).x - (nth ps i).x) ≤
      (t2 - (nth ps i).x) / ((nth ps (i + 1)).x - (nth ps i).x) :=
    div_le_div_of_nonneg_right (by linarith) hdx
  constructor
  · intro hy
    have hmul := mul_le_mul_of_nonneg_right hfrac (sub_nonneg.mpr hy)
    simp only [lerpSeg]
    linarith
  · intro hy
    have hmul := mul_le_mul_of_nonpos_right hfrac (by linarith :
      (nth ps (i + 1)).y - (nth ps i).y ≤ 0)
    simp only [lerpSeg]
    linarith

/-- Witness for C8 on the rising segment of the spec's demo series. -/
theorem valueAt_monotone_on_segments_witness :
    getYAtX demoSeries 10 ≤ getYAtX demoSeries 30 :=
  (valueAt_monotone_on_segments demoSeries 0 10 30 (by decide) (by decide)
    (by decide) (by decide) (by decide)).1 (by decide)

/-- Claim C1: on a strictly sorted sequence with queryX strictly between
the first and last x, valueAt returns the linear interpolation on the
first (lowest-index) bracketing segment; on the demo series the values at
25, 75, and 50 are 50, 50, and exactly 100. -/
theorem valueAt_first_bracket_rule :
    (∀ (ps : List DataPoint) (t : ℚ) (i : ℕ), SortedX ps →
      (nth ps 0).x < t → t < (nth ps (ps.length - 1)).x →
      i + 1 < ps.length → BracketsAt ps i t →
      (∀ j, j < i → ¬ BracketsAt ps j t) →
      getYAtX ps t = (nth ps i).y +
        (t - (nth ps i).x) / ((nth ps (i + 1)).x - (nth ps i).x) *
          ((nth ps (i + 1)).y - (nth ps i).y)) ∧
    (getYAtX demoSeries 25 = 50 ∧ getYAtX demoSeries 75 = 50 ∧
      getYAtX demoSeries 50 = 100) := by
  constructor
  · intro ps t i hs _ _ hi hbr _
    obtain ⟨h1, h2⟩ := hbr
    rw [getYAtX_on_seg ps t i hs hi h1 h2]
    rfl
  · refine ⟨?_, ?_, ?_⟩ <;> norm_num [getYAtX, interpScan, demoSeries]

/-- Witness for C1 at the demo series, query 25 on segment 0. -/
theorem valueAt_first_bracket_rule_witness :
    getYAtX demoSeries 25 = (nth demoSeries 0).y +
      (25 - (nth demoSeries 0).x) /
        ((nth demoSeries 1).x - (nth demoSeries 0).x) *
        ((nth demoSeries 1).y - (nth demoSeries 0).y) :=
  valueAt_first_bracket_rule.1 demoSeries 25 0 (by decide) (by decide)
    (by decide) (by decide) (by decide)
    (fun j hj => absurd hj (Nat.not_lt_zero j))

lemma find?_primary_of_unique (lines : List ChartLine) (pl : ChartLine)
    (hmem : pl ∈ lines) (hp : isPrimaryTrue pl = true)
    (huniq : ∀ l ∈ lines, isPrimaryTrue l = true → l = pl) :
    List.find? (fun l => isPrimaryTrue l) lines = some pl := by
  induction lines with
  | nil => simp at hmem
  | cons l ls ih =>
    by_cases hl : isPrimaryTrue l = true
    · have : l = pl := huniq l (List.mem_cons_self l ls) hl
      subst this
      simp [List.find?, hl]
    · have hpl_mem : pl ∈ ls := by
        rcases List.mem_cons.mp hmem with h | h
        · rw [h] at hp
          exact absurd hp hl
        · exact h
      have hrec := ih hpl_mem
        (fun l' hl' hp' => huniq l' (List.mem_cons_of_mem l hl') hp')
      simp only [List.find?]
      rw [Bool.of_not_eq_true hl]
      exact hrec

lemma selectPrimary_cons_eq (lines : List ChartLine) (pl : ChartLine)
    (h : List.find? (fun l => isPrimaryTrue l) lines = some pl) :
    selectPrimary lines = some pl := by
  simp [selectPrimary, h, Option.orElse]

lemma getLabelAtX_of_selected {lines : List ChartLine} {pl : ChartLine}
    (hsel : selectPrimary lines = some pl) (t : ℚ) :
    getLabelAtX lines t =
      (match labelScan pl.data t with
       | some s => s
       | none =>
         match pl.data.getLast? with
         | none => ""
         | some p => (p.label).getD ("")) := by
  simp only [getLabelAtX, hsel]

/-- Claim C2: labelAt selects the flagged primary series (falling back to
the first series when none is flagged) and, on a bracketed segment of the
selected series, returns the left endpoint's label when t < 0.5 and the
right endpoint's label when t is at least 0.5; at adjacent points x = 0
and x = 100 the label flips between 49.9 and 50.0. -/
theorem labelAt_selection_and_tie_break :
    (∀ (lines : List ChartLine) (pl : ChartLine), pl ∈ lines →
      isPrimaryTrue pl = true →
      (∀ l ∈ lines, isPrimaryTrue l = true → l = pl) →
      selectPrimary lines = some pl) ∧
    (∀ lines : List ChartLine, (∀ l ∈ lines, isPrimaryTrue l = false) →
      selectPrimary lines = lines.head?) ∧
    (∀ (lines : List ChartLine) (t : ℚ) (pl : ChartLine) (i : ℕ),
      selectPrimary lines = some pl →
      i + 1 < pl.data.length → BracketsAt pl.data i t →
      (∀ j, j < i → ¬ BracketsAt pl.data j t) →
      getLabelAtX lines t =
        if (t - (nth pl.data i).x) /
            ((nth pl.data (i + 1)).x - (nth pl.data i).x) < 1 / 2
        then ((nth pl.data i).label).getD ("")
        else ((nth pl.data (i + 1)).label).getD ("")) ∧
    (getLabelAtX [lineLR] (499 / 10) = "L" ∧
      getLabelAtX [lineLR] 50 = "R" ∧
      getLabelAtX [lineLR] (501 / 10) = "R") := by
  refine ⟨?_, ?_, ?_, ?_, ?_, ?_⟩
  · intro lines pl hmem hp huniq
    exact selectPrimary_cons_eq lines pl
      (find?_primary_of_unique lines pl hmem hp huniq)
  · intro lines hnone
    have hfind : List.find? (fun l => isPrimaryTrue l) lines = none :=
      List.find?_eq_none.mpr (fun l hl => by simp [hnone l hl])
    simp [selectPrimary, hfind, Option.orElse]
  · intro lines t pl i hsel hi hbr hfirst
    rw [getLabelAtX_of_selected hsel t,
      labelScan_first pl.data t i hi hbr hfirst]
    rfl
  · norm_num [getLabelAtX, labelScan, selectPrimary, lineLR, isPrimaryTrue,
      List.find?]
  · norm_num [getLabelAtX, labelScan, selectPrimary, lineLR, isPrimaryTrue,
      List.find?]
  · norm_num [getLabelAtX, labelScan, selectPrimary, lineLR, isPrimaryTrue,
      List.find?]

/-- Witness for C2 on the tie-break line at the midpoint query. -/
theorem labelAt_selection_and_tie_break_witness :
    getLabelAtX [lineLR] 50 =
      (if ((50 : ℚ) - (nth lineLR.data 0).x) /
          ((nth lineLR.data 1).x - (nth lineLR.data 0).x) < 1 / 2
       then ((nth lineLR.data 0).label).getD ("")
       else ((nth lineLR.data 1).label).getD ("")) :=
  labelAt_selection_and_tie_break.2.2.1 [lineLR] 50 lineLR 0 (by decide)
    (by decide) (by decide) (fun j hj => absurd hj (Nat.not_lt_zero j))

/-- Claim C9: labelAt follows the defined-default policy: empty string on
the empty collection and on a selected series without data, and the last
point's label when queryX lies beyond the last segment. -/
theorem labelAt_defined_default_policy :
    (∀ t : ℚ, getLabelAtX [] t = "") ∧
    (∀ (lines : List ChartLine) (t : ℚ) (pl : ChartLine),
      selectPrimary lines = some pl → pl.data = [] →
      getLabelAtX lines t = "") ∧
    (∀ (lines : List ChartLine) (t : ℚ) (pl : ChartLine) (p : DataPoint),
      selectPrimary lines = some pl → SortedX pl.data →
      pl.data.getLast? = some p → p.x < t →
      getLabelAtX lines t = (p.label).getD ("")) := by
  refine ⟨fun t => rfl, ?_, ?_⟩
  · intro lines t pl hsel hdata
    rw [getLabelAtX_of_selected hsel t, hdata]
    rfl
  · intro lines t pl p hsel hs hl ht
    have hne : pl.data ≠ [] := by
      intro h
      rw [h] at hl
      simp at hl
    have hp : p = nth pl.data (pl.data.length - 1) := by
      rw [getLast?_eq_nth pl.data hne] at hl
      exact (Option.some_injective _ hl).symm
    have hscan : labelScan pl.data t = none := by
      apply labelScan_eq_none
      intro j hj hbr
      obtain ⟨_, hc2⟩ := hbr
      have hle : (nth pl.data (j + 1)).x ≤ (nth pl.data (pl.data.length - 1)).x :=
        sortedX_le hs (by omega) (by omega)
      rw [← hp] at hle
      linarith
    rw [getLabelAtX_of_selected hsel t, hscan, hl]

/-- Witness for C9 on the tie-break line with a query beyond the data. -/
theorem labelAt_defined_default_policy_witness :
    getLabelAtX [lineLR] 200 =
      ((⟨100, 0, some ("R")⟩ : DataPoint).label).getD ("") :=
  labelAt_defined_default_policy.2.2 [lineLR] 200 lineLR
    ⟨100, 0, some ("R")⟩ (by decide) (by decide) (by decide) (by decide)

lemma scanDenoms_pos (ps : List DataPoint) (t : ℚ) (hs : SortedX ps) :
    ∀ d ∈ scanDenoms ps t, 0 < d := by
  induction ps with
  | nil => intro d hd; simp [scanDenoms] at hd
  | cons p rest ih =>
    cases rest with
    | nil => intro d hd; simp [scanDenoms] at hd
    | cons q rest' =>
      intro d hd
      by_cases hc : p.x ≤ t ∧ t ≤ q.x
      · simp only [scanDenoms, if_pos hc, List.mem_singleton] at hd
        have hpq : p.x < q.x :=
          (List.pairwise_cons.mp hs).1 q (List.mem_cons_self q rest')
        rw [hd]
        exact sub_pos.mpr hpq
      · simp only [scanDenoms, if_neg hc] at hd
        exact ih (sortedX_tail hs) d hd

lemma getYAtXDenoms_cons (p : DataPoint) (rest : List DataPoint) (t : ℚ) :
    getYAtXDenoms (p :: rest) t =
      (if t ≤ p.x then []
       else if ((p :: rest).getLast (List.cons_ne_nil p rest)).x ≤ t then []
       else scanDenoms (p :: rest) t) := rfl

/-- Claim C10: under strictly ascending x, every denominator evaluated by
the scan loops of valueAt and labelAt is positive, so neither function
can divide by zero. -/
theorem interpolation_no_division_by_zero :
    (∀ (ps : List DataPoint) (t : ℚ), SortedX ps →
      ∀ d ∈ getYAtXDenoms ps t, 0 < d) ∧
    (∀ (lines : List ChartLine) (t : ℚ) (pl : ChartLine),
      selectPrimary lines = some pl → SortedX pl.data →
      ∀ d ∈ getLabelAtXDenoms lines t, 0 < d) := by
  constructor
  · intro ps t hs d hd
    cases ps with
    | nil => simp [getYAtXDenoms] at hd
    | cons p rest =>
      rw [getYAtXDenoms_cons] at hd
      by_cases h1 : t ≤ p.x
      · rw [if_pos h1] at hd
        simp at hd
      · rw [if_neg h1] at hd
        by_cases h2 : ((p :: rest).getLast (List.cons_ne_nil p rest)).x ≤ t
        · rw [if_pos h2] at hd
          simp at hd
        · rw [if_neg h2] at hd
          exact scanDenoms_pos (p :: rest) t hs d hd
  · intro lines t pl hsel hs d hd
    simp only [getLabelAtXDenoms, hsel] at hd
    exact scanDenoms_pos pl.data t hs d hd

/-- Witness for C10: the denominator met by the demo query at 25 is the
positive segment width. -/
theorem interpolation_no_division_by_zero_witness :
    0 < (nth demoSeries 1).x - (nth demoSeries 0).x :=
  interpolation_no_division_by_zero.1 demoSeries 25 (by decide)
    ((nth demoSeries 1).x - (nth demoSeries 0).x)
    (by norm_num [getYAtXDenoms_cons, scanDenoms, demoSeries, nth,
      List.getLast])

lemma length_mappedPoints (ps : List DataPoint) (w h : ℚ) :
    (mappedPoints ps w h).length = ps.length := by
  simp [mappedPoints]

lemma nthPix_mapped (ps : List DataPoint) (w h : ℚ) (j : ℕ)
    (hj : j < ps.length) :
    nthPix (mappedPoints ps w h) j = toPixel w h (nth ps j) := by
  have hj' : j < (mappedPoints ps w h).length := by
    rw [length_mappedPoints]; exact hj
  rw [nthPix, nth, List.getD_eq_getElem?_getD, List.getD_eq_getElem?_getD,
    List.getElem?_eq_getElem hj', List.getElem?_eq_getElem hj]
  simp [mappedPoints]

lemma segAt_eq_specSegAt (ps : List DataPoint) (w h : ℚ) (i : ℕ)
    (hi : i + 1 < ps.length) :
    segAt ps w h i = specSegAt (mappedPoints ps w h) i := by
  have hlen0 : 0 < ps.length := by omega
  simp only [segAt, specSegAt, length_mappedPoints]
  rw [nthPix_mapped ps w h (i - 1) (by omega),
    nthPix_mapped ps w h i (by omega),
    nthPix_mapped ps w h (i + 1) hi,
    nthPix_mapped ps w h (min (ps.length - 1) (i + 2)) (by omega)]
  rfl

/-- Claim C3: buildSmoothPath yields the empty path on fewer than 2
points; on n points (n at least 2) it yields the first mapped point
followed by exactly n-1 cubic segments, where segment i uses the spec's
clamped-neighbor control-point rule over the mapped pixel sequence. -/
theorem buildSmoothPath_structure :
    (∀ (ps : List DataPoint) (w h : ℚ), ps.length < 2 →
      generateSmoothPath ps w h = none) ∧
    (∀ (ps : List DataPoint) (w h : ℚ), 2 ≤ ps.length →
      ∃ start segs, generateSmoothPath ps w h = some (start, segs) ∧
        start = nthPix (mappedPoints ps w h) 0 ∧
        segs.length = ps.length - 1 ∧
        (∀ i, i < ps.length - 1 →
          nthSeg segs i = specSegAt (mappedPoints ps w h) i)) := by
  constructor
  · intro ps w h hlen
    cases ps with
    | nil => rfl
    | cons p rest =>
      cases rest with
      | nil => rfl
      | cons q rest' =>
        simp at hlen
        omega
  · intro ps w h hlen
    cases ps with
    | nil => simp at hlen
    | cons p rest =>
      cases rest with
      | nil => simp at hlen
      | cons q rest' =>
        refine ⟨toPixel w h p,
          (List.range ((p :: q :: rest').length - 1)).map
            (segAt (p :: q :: rest') w h), rfl, ?_, ?_, ?_⟩
        · rw [nthPix_mapped (p :: q :: rest') w h 0 (by simp)]
          rfl
        · simp
        · intro i hi
          have hlt : i < (List.range ((p :: q :: rest').length - 1)).length := by
            simpa using hi
          have hlt' : i < ((List.range ((p :: q :: rest').length - 1)).map
              (segAt (p :: q :: rest') w h)).length := by
            simpa using hi
          rw [nthSeg, List.getD_eq_getElem?_getD,
            List.getElem?_eq_getElem hlt', List.getElem_map,
            List.getElem_range]
          exact segAt_eq_specSegAt (p :: q :: rest') w h i (by omega)

/-- Witness for C3: the demo series has 3 points, so its path is a start
point and two cubic segments. -/
theorem buildSmoothPath_structure_witness :
    ∃ start segs, generateSmoothPath demoSeries 280 75 = some (start, segs) ∧
      start = nthPix (mappedPoints demoSeries 280 75) 0 ∧
      segs.length = demoSeries.length - 1 ∧
      (∀ i, i < demoSeries.length - 1 →
        nthSeg segs i = specSegAt (mappedPoints demoSeries 280 75) i) :=
  buildSmoothPath_structure.2 demoSeries 280 75 (by decide)

/-- Claim C6: with exactly 2 points the single cubic segment's control
points both lie on the straight line between the two mapped endpoints,
at parameters 1/6 and 5/6. -/
theorem twoPoint_curve_collapses_to_line (a b : DataPoint) (w h : ℚ) :
    ∃ s u : ℚ, 0 ≤ s ∧ s ≤ 1 ∧ 0 ≤ u ∧ u ≤ 1 ∧
      generateSmoothPath [a, b] w h =
        some (toPixel w h a,
          [{ cp1 := ⟨(toPixel w h a).px +
                s * ((toPixel w h b).px - (toPixel w h a).px),
              (toPixel w h a).py +
                s * ((toPixel w h b).py - (toPixel w h a).py)⟩
             cp2 := ⟨(toPixel w h a).px +
                u * ((toPixel w h b).px - (toPixel w h a).px),
              (toPixel w h a).py +
                u * ((toPixel w h b).py - (toPixel w h a).py)⟩
             endPt := toPixel w h b }]) := by
  refine ⟨1 / 6, 5 / 6, by norm_num, by norm_num, by norm_num, by norm_num, ?_⟩
  have hpath : generateSmoothPath [a, b] w h =
      some (toPixel w h a, [segAt [a, b] w h 0]) := rfl
  rw [hpath]
  have hseg : segAt [a, b] w h 0 =
      { cp1 := ⟨(toPixel w h a).px +
            1 / 6 * ((toPixel w h b).px - (toPixel w h a).px),
          (toPixel w h a).py +
            1 / 6 * ((toPixel w h b).py - (toPixel w h a).py)⟩
        cp2 := ⟨(toPixel w h a).px +
            5 / 6 * ((toPixel w h b).px - (toPixel w h a).px),
          (toPixel w h a).py +
            5 / 6 * ((toPixel w h b).py - (toPixel w h a).py)⟩
        endPt := toPixel w h b } := by
    simp only [segAt]
    norm_num [nth, dfltPoint]
    simp only [toPixel, CubicSeg.mk.injEq, Pixel.mk.injEq]
    and_intros <;> ring
  rw [hseg]

lemma nthLine_eq_getElem (ls : List ChartLine) (i : ℕ) (h : i < ls.length) :
    nthLine ls i = ls[i] := by
  simp [nthLine, List.getD_eq_getElem?_getD, List.getElem?_eq_getElem h]

/-- Counterexample to C5: in the collection [lineA, lineB] the primary
series is lineB (id b), yet the emitted path order is [b, a], so the
non-primary lineA is drawn last, on top. -/
theorem chart_draw_order_counterexample :
    isPrimaryTrue lineA = false ∧ isPrimaryTrue lineB = true ∧
    (renderedPaths [lineA, lineB] 280 75).map Prod.fst = ["b", "a"] ∧
    ((renderedPaths [lineA, lineB] 280 75).map Prod.fst).getLast? =
      some (lineA.id) := by
  refine ⟨rfl, rfl, rfl, rfl⟩

/-- Claim C5 amended: the Chart View emits the series paths in reverse
collection order, so the first series of the collection is drawn last,
on top of all others, regardless of which series is flagged primary. -/
theorem chart_draw_order_reverse :
    (∀ (lines : List ChartLine) (w h : ℚ) (i : ℕ), i < lines.length →
      (renderedPaths lines w h).getD i ("", none) =
        ((nthLine lines (lines.length - 1 - i)).id,
          generateSmoothPath (nthLine lines (lines.length - 1 - i)).data w h)) ∧
    (∀ (lines : List ChartLine) (w h : ℚ) (l : ChartLine),
      lines.head? = some l →
      (renderedPaths lines w h).getLast? =
        some (l.id, generateSmoothPath l.data w h)) := by
  constructor
  · intro lines w h i hi
    have hi' : i < (renderedPaths lines w h).length := by
      simp [renderedPaths, hi]
    have hirev : i < lines.reverse.length := by
      simp [hi]
    have hidx : lines.length - 1 - i < lines.length := by omega
    rw [List.getD_eq_getElem?_getD, List.getElem?_eq_getElem hi']
    simp only [renderedPaths]
    rw [List.getElem_map, List.getElem_reverse,
      nthLine_eq_getElem lines (lines.length - 1 - i) hidx]
    rfl
  · intro lines w h l hh
    simp only [renderedPaths]
    rw [List.getLast?_map, List.getLast?_reverse, hh]
    rfl

/-- Witness for the amended C5: with [lineA, lineB] the last emitted path
is lineA's, the first series of the collection. -/
theorem chart_draw_order_reverse_witness :
    (renderedPaths [lineA, lineB] 280 75).getLast? =
      some (lineA.id, generateSmoothPath lineA.data 280 75) :=
  chart_draw_order_reverse.2 [lineA, lineB] 280 75 lineA rfl

end ObsidianDashboard
